import Mathlib

/-!
A shallow embedding of the rwatcher polling file watcher (src/lib.rs and
src/search_dir.rs) together with proofs about its scan, filter, diff and
lifecycle behaviour.  SystemTime is modelled as a natural number of ticks;
fallible operations (io::Result values that the source unwraps) are modelled
with Option or Except, a none/error result standing for the panic of the
corresponding unwrap.
-/

namespace RWatcher

/-- SystemTime, modelled as ticks. -/
abbrev Time := Nat

/-- search_dir.rs: struct File.  Equality and hashing in the source use only
the name, so set operations below are keyed on the name field. -/
structure File where
  name : String
  last_modified : Option Time
  last_accessed : Option Time
  created : Time
deriving Repr, DecidableEq

/-- search_dir.rs: struct RenamedFileEntry(String, String), first component
the new name, second the old name. -/
structure RenamedFileEntry where
  name : String
  old_name : String
deriving Repr, DecidableEq

/-- The triple of timestamps read from std::fs::Metadata, each accessor
already unwrapped successfully. -/
structure Metadata where
  modified : Time
  accessed : Time
  created : Time
deriving Repr, DecidableEq

/-- lib.rs: the NotifyFilters bitflags carrier (u8 bit patterns). -/
abbrev NotifyFilters := Nat

def NotifyFilters.Attributes : NotifyFilters := 0

def NotifyFilters.CreationTime : NotifyFilters := 1

def NotifyFilters.DirectoryName : NotifyFilters := 2

def NotifyFilters.FileName : NotifyFilters := 3

def NotifyFilters.LastAccess : NotifyFilters := 4

def NotifyFilters.LastWrite : NotifyFilters := 5

def NotifyFilters.Security : NotifyFilters := 6

def NotifyFilters.Size : NotifyFilters := 7

/-- bitflags contains: self.bits() & other.bits() == other.bits(). -/
def NotifyFilters.contains (m v : NotifyFilters) : Bool :=
  m.land v == v

/-- Membership by path identity, the equality File uses in the source. -/
def memName (l : List File) (n : String) : Bool :=
  l.any (fun g => g.name == n)

/-- HashSet::get keyed on the name field. -/
def getByName (l : List File) (n : String) : Option File :=
  l.find? (fun g => g.name == n)

/-- HashSet::remove keyed on the name field. -/
def removeName (l : List File) (n : String) : List File :=
  l.filter (fun g => !(g.name == n))

/-- HashSet::insert: a no-op when an element with the same name is present. -/
def insertFile (l : List File) (f : File) : List File :=
  if memName l f.name then l else l ++ [f]

/-- HashSet::difference keyed on the name field. -/
def diffByName (a b : List File) : List File :=
  a.filter (fun f => !(memName b f.name))

/-- HashSet::union: keeps the receiver's elements, adds the other set's
elements whose name is not already present. -/
def unionFiles (a b : List File) : List File :=
  a ++ b.filter (fun f => !(memName a f.name))

/-- lib.rs FileWatcher::apply_notify_filters.  The source unwraps
file.last_modified() in both the last_write and the last_access clause (the
last_access clause compares the directory's accessed time against the file's
modified time), so a file without a modified timestamp makes it panic,
modelled as none. -/
def apply_notify_filters (file : File) (old_meta : Metadata)
    (notify_filters : NotifyFilters) : Option Bool :=
  match file.last_modified with
  | none => none
  | some fm =>
    let last_write := NotifyFilters.contains notify_filters NotifyFilters.LastWrite
      && !(old_meta.modified == fm)
    if last_write then some last_write
    else
      let last_access := NotifyFilters.contains notify_filters NotifyFilters.LastAccess
        && !(old_meta.accessed == fm)
      if last_access then some last_access
      else
        some (NotifyFilters.contains notify_filters NotifyFilters.CreationTime
          && !(old_meta.created == file.created))

/-- lib.rs FileWatcher::get_files: keep the scanned files that pass
apply_notify_filters against the watched directory's metadata; a panic inside
the filter aborts the whole call. -/
def get_files : List File → Metadata → NotifyFilters → Option (List File)
  | [], _, _ => some []
  | f :: rest, meta, nf =>
    match apply_notify_filters f meta nf, get_files rest meta nf with
    | some b, some r => some (if b then f :: r else r)
    | _, _ => none

/-- lib.rs start, lines 378-389: the changed_files loop.  Iterates the latest
snapshot; a file found in all_files whose unwrapped modified timestamps
differ is recorded as changed and its all_files entry refreshed in place
(remove then insert).  The unwraps panic on an absent timestamp, modelled as
none.  Returns the changed list and the mutated all_files. -/
def changed_loop : List File → List File → Option (List File × List File)
  | [], all => some ([], all)
  | f :: rest, all =>
    match getByName all f.name with
    | none => changed_loop rest all
    | some fe =>
      match fe.last_modified, f.last_modified with
      | some fm, some nm =>
        if !(fm == nm) then
          match changed_loop rest (insertFile (removeName all f.name) f) with
          | some (ch, al) => some (f :: ch, al)
          | none => none
        else changed_loop rest all
      | _, _ => none

/-- lib.rs start, lines 391-403: the renamed_files correlation.  For each
created file, scan a fresh clone of deleted_files for the first deleted file
with an equal (Option-valued, no unwrap) modified timestamp; record
(created.name, deleted.name), remove the deleted file from all_files and
insert the created one.  deleted_files itself is never mutated, so the same
deleted candidate can match several created files.  Returns the renamed list
and the mutated all_files. -/
def rename_loop : List File → List File → List File → List RenamedFileEntry × List File
  | [], _, all => ([], all)
  | c :: cs, deleted, all =>
    match deleted.find? (fun d => d.last_modified == c.last_modified) with
    | some d =>
      let res := rename_loop cs deleted (insertFile (removeName all d.name) c)
      (⟨c.name, d.name⟩ :: res.1, res.2)
    | none => rename_loop cs deleted all

/-- The four classifications one detection cycle publishes, plus the
all_files baseline as it stands after the cycle's updates. -/
structure DiffResult where
  created : List File
  changed : List File
  deleted : List File
  renamed : List RenamedFileEntry
  all_after : List File
deriving Repr, DecidableEq

/-- lib.rs start, lines 365-447: one detection cycle against a latest
snapshot.  created and deleted are name-keyed set differences; changed comes
from changed_loop; renames are correlated by rename_loop; both members of
every renamed pair are filtered out of created and deleted before
publication; finally all_files absorbs the published created files and drops
the published deleted ones. -/
def diff (all latest : List File) : Option DiffResult :=
  let created0 := diffByName latest all
  let deleted0 := diffByName all latest
  match changed_loop latest all with
  | none => none
  | some (changed, all1) =>
    let rl := rename_loop created0 deleted0 all1
    let renamed := rl.1
    let created := created0.filter (fun f => !(renamed.any (fun v => v.name == f.name)))
    let deleted := deleted0.filter (fun f => !(renamed.any (fun v => v.old_name == f.name)))
    let all2 := if created.length > 0 then unionFiles rl.2 created else rl.2
    let all3 :=
      if deleted.length > 0 then deleted.foldl (fun acc f => removeName acc f.name) all2
      else all2
    some ⟨created, changed, deleted, renamed, all3⟩

/-- lib.rs OPERATION, the payload of a CONTINUE channel message.  ERROR
carries std::fmt::Error, a unit struct. -/
inductive OPERATION where
  | CREATE (data : List File)
  | CHANGE (data : List File)
  | DELETE (data : List File)
  | RENAME (data : List RenamedFileEntry)
  | ERROR
deriving Repr, DecidableEq

/-- lib.rs start, lines 409-444: the messages one cycle sends, each
classification only when non-empty, in the fixed order create, change,
delete, rename. -/
def cycle_messages (r : DiffResult) : List OPERATION :=
  (if r.created.length > 0 then [OPERATION.CREATE r.created] else []) ++
    (if r.changed.length > 0 then [OPERATION.CHANGE r.changed] else []) ++
    (if r.deleted.length > 0 then [OPERATION.DELETE r.deleted] else []) ++
    (if r.renamed.length > 0 then [OPERATION.RENAME r.renamed] else [])

/-- One full poll iteration on the data level: build the latest snapshot with
get_files, then run a detection cycle against the baseline. -/
def poll_cycle (all scanned : List File) (meta : Metadata) (nf : NotifyFilters) :
    Option DiffResult :=
  match get_files scanned meta nf with
  | none => none
  | some latest => diff all latest

/-- search_dir.rs SearchDir::has_changed: unwraps fs::metadata of the root
(none when the root is unreadable, which panics) and compares its modified
time with the stored one. -/
def has_changed (meta : Metadata) (fs_meta : Option Metadata) : Option Bool :=
  match fs_meta with
  | none => none
  | some m => some (!(meta.modified == m.modified))

/-- What one iteration of the poll loop does at its directory pre-check
(lib.rs start, lines 358-363). -/
inductive PollStep where
  | panicked
  | sleep_continue
  | scan_and_diff
deriving Repr, DecidableEq

/-- lib.rs start, lines 358-363: when has_changed panics the poller thread
dies; when it is false the loop sleeps and continues; when true the loop
proceeds to scan and diff. -/
def poll_precheck (meta : Metadata) (fs_meta : Option Metadata) : PollStep :=
  match has_changed meta fs_meta with
  | none => PollStep.panicked
  | some false => PollStep.sleep_continue
  | some true => PollStep.scan_and_diff

/-- lib.rs start, lines 293-314: the notifier's dispatch on a CONTINUE
message.  Every arm invokes the optional callback except the ERROR arm,
which is todo!(), i.e. a panic, modelled as none. -/
def notifier_handle : OPERATION → Option Unit
  | OPERATION.ERROR => none
  | _ => some ()

/-- search_dir.rs: the filter token separators, semicolon and comma. -/
def FILTER_SEPARATORS (c : Char) : Bool :=
  c == ';' || c == ','

/-- search_dir.rs: ALL_FILES_FILTER. -/
def ALL_FILES_FILTER : String :=
  "*.*"

/-- The character class of VALID_FILTER_REGEX_PATH, ASCII letters and
digits. -/
def isAlnumChar (c : Char) : Bool :=
  c.isAlpha || c.isDigit

/-- One or more characters, all in the regex character class. -/
def alnum1 (cs : List Char) : Bool :=
  !cs.isEmpty && cs.all isAlnumChar

/-- search_dir.rs VALID_FILTER_REGEX_PATH, anchored alternation of the star
dot star token, star dot extension, and name dot extension. -/
def validTokenL : List Char → Bool
  | '*' :: '.' :: rest => rest == ['*'] || alnum1 rest
  | cs =>
    let a := cs.takeWhile (fun c => !(c == '.'))
    match cs.dropWhile (fun c => !(c == '.')) with
    | '.' :: b => alnum1 a && alnum1 b
    | _ => false

def validToken (s : String) : Bool :=
  validTokenL s.toList

/-- Rust str::split on a character predicate: the pieces between separator
occurrences, empty pieces included. -/
def splitChars (p : Char → Bool) : List Char → List Char → List (List Char)
  | [], acc => [acc.reverse]
  | c :: rest, acc =>
    if p c then acc.reverse :: splitChars p rest []
    else splitChars p rest (c :: acc)

/-- search_dir.rs SearchDir::new, line 108: file.split(FILTER_SEPARATORS). -/
def splitFilters (s : String) : List String :=
  (splitChars FILTER_SEPARATORS s.toList []).map String.mk

/-- Rust str::starts_with applied to the star literal. -/
def startsWithStar (s : String) : Bool :=
  match s.toList with
  | '*' :: _ => true
  | _ => false

/-- search_dir.rs SearchDir::new, line 128-129: elem.split(POINT_CHAR) and
indexing the second piece; the index exists for every token that passed the
regex and starts with a star. -/
def extOf (s : String) : String :=
  match (splitChars (fun c => c == '.') s.toList []).map String.mk with
  | _ :: e :: _ => e
  | _ => ""

/-- The configuration failure the spec names; search_dir.rs realizes it as a
panic in SearchDir::new, aborting construction. -/
inductive ConfigError where
  | BadFilter
deriving Repr, DecidableEq

/-- The filter state SearchDir::new derives from the filter expression. -/
structure ParsedFilter where
  include_all_files : Bool
  extensions : Option (List String)
  file_names : Option (List String)
deriving Repr, DecidableEq

/-- search_dir.rs SearchDir::new, lines 121-133: the per-token loop.  Any
token failing the regex panics (no partial object survives); a token
starting with a star contributes its extension, any other token is kept as
an exact file name. -/
def parseTokens : List String → Except ConfigError (List String × List String)
  | [] => Except.ok ([], [])
  | t :: rest =>
    if !(validToken t) then Except.error ConfigError.BadFilter
    else
      match parseTokens rest with
      | Except.error e => Except.error e
      | Except.ok (exs, fns) =>
        if startsWithStar t then Except.ok (extOf t :: exs, fns)
        else Except.ok (exs, t :: fns)

/-- search_dir.rs SearchDir::new, lines 101-139: split the expression on the
separators; when any token equals the all-files token, record include_all
and skip every further check; otherwise validate and bucket every token.  A
missing or empty expression yields the no-filter state. -/
def parseFilter (filter : Option String) : Except ConfigError ParsedFilter :=
  match filter with
  | none => Except.ok ⟨false, none, none⟩
  | some file =>
    if file.toList.isEmpty then Except.ok ⟨false, none, none⟩
    else
      let split_extensions := splitFilters file
      if split_extensions.any (fun e => e == ALL_FILES_FILTER) then
        Except.ok ⟨true, none, none⟩
      else
        match parseTokens split_extensions with
        | Except.error e => Except.error e
        | Except.ok (exs, fns) => Except.ok ⟨false, some exs, some fns⟩

/-- Rust str::contains: needle occurs as a substring of the haystack. -/
def isSubstr (pat : List Char) : List Char → Bool
  | [] => pat.isEmpty
  | c :: t => pat.isPrefixOf (c :: t) || isSubstr pat t

def strContains (hay pat : String) : Bool :=
  isSubstr pat.toList hay.toList

/-- std::path::Path::extension of a file name: the portion after the last
dot, none when there is no dot or when the name is a lone leading-dot
name. -/
def splitAtLastDot : List Char → Option (List Char × List Char)
  | [] => none
  | c :: rest =>
    match splitAtLastDot rest with
    | some (a, b) => some (c :: a, b)
    | none => if c == '.' then some ([], rest) else none

def pathExtension (name : String) : Option String :=
  match splitAtLastDot name.toList with
  | some (before, after) => if before.isEmpty then none else some (String.mk after)
  | none => none

/-- search_dir.rs SearchDir::get_files_internal, lines 227-248: the filter
closure over one directory entry.  Directories always pass; when an
extension set exists and the entry has an extension the verdict is whether
some parsed extension contains it as a substring; otherwise the exact file
name is looked up in the file-name set when that exists; otherwise the entry
passes. -/
def entry_filter (is_file : Bool) (name : String)
    (extensions : Option (List String)) (file_names : Option (List String)) : Bool :=
  if !is_file then true
  else
    match extensions, pathExtension name with
    | some exts, some extension => exts.any (fun e => strContains e extension)
    | _, _ =>
      match file_names with
      | some names => names.contains name
      | none => true

/-- The io::Result-valued timestamp accessors of one directory entry's
metadata at visit time. -/
structure MetaTimes where
  created : Except String Time
  modified : Except String Time
  accessed : Except String Time
deriving Repr

/-- search_dir.rs SearchDir::get_files_internal, lines 260-267: the File
record built for a kept entry.  Every timestamp accessor is unwrapped, in
field order created, modified, accessed; an unsupported timestamp therefore
panics the scan, modelled as error. -/
def scan_entry_file (path : String) (meta : MetaTimes) : Except String File :=
  match meta.created with
  | Except.error e => Except.error e
  | Except.ok c =>
    match meta.modified with
    | Except.error e => Except.error e
    | Except.ok m =>
      match meta.accessed with
      | Except.error e => Except.error e
      | Except.ok a => Except.ok ⟨path, some m, some a, c⟩

/-- lib.rs FileWatcher::start, the is_started state logic: returns false and
leaves the state alone when already started, otherwise sets the flag and
returns true.  First component is the returned Bool, second the new flag. -/
def FileWatcher.start (is_started : Bool) : Bool × Bool :=
  if is_started then (false, is_started) else (true, true)

/-- lib.rs FileWatcher::stop: returns false when not started, otherwise
clears the flag and returns true. -/
def FileWatcher.stop (is_started : Bool) : Bool × Bool :=
  if !is_started then (false, is_started) else (true, false)

/-! Helper lemmas about the name-keyed set operations. -/

theorem memName_iff (l : List File) (n : String) :
    memName l n = true ↔ ∃ g, g ∈ l ∧ g.name = n := by
  simp [memName, List.any_eq_true]

theorem memName_eq_false (l : List File) (n : String) :
    memName l n = false ↔ ∀ g ∈ l, g.name ≠ n := by
  rw [← Bool.not_eq_true, memName_iff]
  push_neg
  constructor
  · intro h g hg; exact h g hg
  · intro h g hg; exact h g hg

theorem mem_removeName (l : List File) (n : String) (g : File) :
    g ∈ removeName l n ↔ (g ∈ l ∧ g.name ≠ n) := by
  simp [removeName, List.mem_filter]

theorem memName_removeName_self (l : List File) (n : String) :
    memName (removeName l n) n = false := by
  rw [memName_eq_false]
  intro g hg
  exact ((mem_removeName l n g).mp hg).2

theorem mem_getByName (l : List File) (n : String) (f : File)
    (h : getByName l n = some f) : f ∈ l ∧ f.name = n := by
  refine ⟨List.mem_of_find?_eq_some h, ?_⟩
  have := List.find?_some h
  simpa using this

theorem getByName_removeName (l : List File) (n m : String) (hm : ¬(m = n)) :
    getByName (removeName l n) m = getByName l m := by
  induction l with
  | nil => rfl
  | cons g gs ih =>
    by_cases hg : g.name = n
    · have h1 : removeName (g :: gs) n = removeName gs n := by
        simp [removeName, hg]
      have h2 : getByName (g :: gs) m = getByName gs m := by
        have : (g.name == m) = false := by
          simp [hg]; intro hc; exact hm hc.symm
        simp [getByName, List.find?, this]
      rw [h1, h2]; exact ih
    · have h1 : removeName (g :: gs) n = g :: removeName gs n := by
        simp [removeName, hg]
      rw [h1]
      by_cases hgm : g.name = m
      · simp [getByName, List.find?, hgm]
      · have : (g.name == m) = false := by simp [hgm]
        simp only [getByName, List.find?, this]
        exact ih

theorem insertFile_not_mem (l : List File) (f : File)
    (h : memName l f.name = false) : insertFile l f = l ++ [f] := by
  simp [insertFile, h]

theorem getByName_append (a b : List File) (n : String) :
    getByName (a ++ b) n =
      match getByName a n with
      | some f => some f
      | none => getByName b n := by
  induction a with
  | nil => simp [getByName]
  | cons g gs ih =>
    by_cases hg : g.name = n
    · simp [getByName, List.find?, hg]
    · have : (g.name == n) = false := by simp [hg]
      simp only [getByName, List.cons_append, List.find?, this]
      exact ih

/-- Refreshing the entry named f.name in place keeps name membership
unchanged, provided that name was present. -/
theorem memName_update (all : List File) (f : File) (m : String)
    (h : memName all f.name = true) :
    memName (insertFile (removeName all f.name) f) m = memName all m := by
  rw [insertFile_not_mem _ _ (memName_removeName_self all f.name)]
  cases hb : memName all m with
  | true =>
    rw [memName_iff] at hb ⊢
    obtain ⟨g, hg, hgn⟩ := hb
    by_cases hgf : m = f.name
    · exact ⟨f, by simp, hgf.symm⟩
    · exact ⟨g, by
        simp only [List.mem_append]
        exact Or.inl ((mem_removeName all f.name g).mpr ⟨hg, by rw [hgn]; exact hgf⟩), hgn⟩
  | false =>
    rw [memName_eq_false] at hb ⊢
    intro g hg
    rcases List.mem_append.mp hg with hga | hgb
    · exact hb g ((mem_removeName all f.name g).mp hga).1
    · have : g = f := by simpa using hgb
      subst this
      intro hc
      rw [memName_iff] at h
      obtain ⟨g2, hg2, hg2n⟩ := h
      exact (hb g2 hg2) (by rw [hg2n, ← hc])

/-- Refreshing the entry named f.name in place does not change lookups of
other names. -/
theorem getByName_update (all : List File) (f : File) (m : String)
    (hm : ¬(m = f.name)) :
    getByName (insertFile (removeName all f.name) f) m = getByName all m := by
  rw [insertFile_not_mem _ _ (memName_removeName_self all f.name)]
  rw [getByName_append]
  have hf1 : getByName [f] m = none := by
    have : (f.name == m) = false := by
      simp; intro hc; exact hm hc.symm
    simp [getByName, List.find?, this]
  rw [hf1, getByName_removeName all f.name m hm]
  cases getByName all m <;> rfl

/-! Unfolding lemmas for changed_loop. -/

theorem changed_loop_cons_none (f : File) (rest all : List File)
    (h : getByName all f.name = none) :
    changed_loop (f :: rest) all = changed_loop rest all := by
  simp [changed_loop, h]

theorem changed_loop_cons_eq (f fe : File) (rest all : List File) (fm : Time)
    (h : getByName all f.name = some fe)
    (hfe : fe.last_modified = some fm) (hf : f.last_modified = some fm) :
    changed_loop (f :: rest) all = changed_loop rest all := by
  simp [changed_loop, h, hfe, hf]

theorem changed_loop_cons_ne (f fe : File) (rest all : List File) (fm nm : Time)
    (h : getByName all f.name = some fe)
    (hfe : fe.last_modified = some fm) (hf : f.last_modified = some nm)
    (hne : ¬(fm = nm)) :
    changed_loop (f :: rest) all =
      match changed_loop rest (insertFile (removeName all f.name) f) with
      | some (ch, al) => some (f :: ch, al)
      | none => none := by
  simp [changed_loop, h, hfe, hf, hne]

theorem changed_loop_cons_bad (f fe : File) (rest all : List File)
    (h : getByName all f.name = some fe)
    (hbad : fe.last_modified = none ∨ f.last_modified = none) :
    changed_loop (f :: rest) all = none := by
  rcases hbad with hb | hb
  · simp [changed_loop, h, hb]
  · cases hfe : fe.last_modified <;> simp [changed_loop, h, hb, hfe]

/-- Every file the changed loop records is drawn from the latest snapshot
and was present (by name) in the baseline. -/
theorem changed_loop_mem (latest : List File) :
    ∀ all ch al, changed_loop latest all = some (ch, al) →
      ∀ g ∈ ch, g ∈ latest ∧ memName all g.name = true := by
  induction latest with
  | nil =>
    intro all ch al h g hg
    simp [changed_loop] at h
    rw [h.1] at hg
    simp at hg
  | cons f rest ih =>
    intro all ch al h g hg
    cases hfind : getByName all f.name with
    | none =>
      rw [changed_loop_cons_none f rest all hfind] at h
      have := ih all ch al h g hg
      exact ⟨List.mem_cons_of_mem f this.1, this.2⟩
    | some fe =>
      cases hfe : fe.last_modified with
      | none =>
        rw [changed_loop_cons_bad f fe rest all hfind (Or.inl hfe)] at h
        exact absurd h (by simp)
      | some fm =>
        cases hf : f.last_modified with
        | none =>
          rw [changed_loop_cons_bad f fe rest all hfind (Or.inr hf)] at h
          exact absurd h (by simp)
        | some nm =>
          by_cases hne : fm = nm
          · subst hne
            rw [changed_loop_cons_eq f fe rest all fm hfind hfe hf] at h
            have := ih all ch al h g hg
            exact ⟨List.mem_cons_of_mem f this.1, this.2⟩
          · rw [changed_loop_cons_ne f fe rest all fm nm hfind hfe hf hne] at h
            have hmem : memName all f.name = true := by
              rw [memName_iff]
              exact ⟨fe, (mem_getByName all f.name fe hfind).1,
                (mem_getByName all f.name fe hfind).2⟩
            cases hrec : changed_loop rest (insertFile (removeName all f.name) f) with
            | none => rw [hrec] at h; exact absurd h (by simp)
            | some p =>
              rw [hrec] at h
              obtain ⟨ch1, al1⟩ := p
              simp only [Option.some.injEq, Prod.mk.injEq] at h
              obtain ⟨hch, hal⟩ := h
              rw [← hch] at hg
              rcases List.mem_cons.mp hg with hgf | hgc
              · subst hgf
                exact ⟨List.mem_cons_self g rest, hmem⟩
              · have := ih _ ch1 al1 (by rw [hrec]) g hgc
                refine ⟨List.mem_cons_of_mem f this.1, ?_⟩
                rw [← memName_update all f g.name hmem]
                exact this.2

/-- When the latest snapshot has pairwise distinct names (a HashSet
guarantee), the changed loop records exactly the latest files that are
present in the baseline under a different modified timestamp. -/
theorem changed_loop_iff (latest : List File) :
    ∀ all ch al, latest.Pairwise (fun a b => a.name ≠ b.name) →
      changed_loop latest all = some (ch, al) →
      ∀ g, (g ∈ ch ↔ (g ∈ latest ∧ ∃ fe, getByName all g.name = some fe ∧
        fe.last_modified ≠ g.last_modified)) := by
  induction latest with
  | nil =>
    intro all ch al _ h g
    simp [changed_loop] at h
    rw [h.1]
    simp
  | cons f rest ih =>
    intro all ch al hpw h g
    have hpw_rest : rest.Pairwise (fun a b => a.name ≠ b.name) :=
      (List.pairwise_cons.mp hpw).2
    have hfns : ∀ b ∈ rest, f.name ≠ b.name := (List.pairwise_cons.mp hpw).1
    cases hfind : getByName all f.name with
    | none =>
      rw [changed_loop_cons_none f rest all hfind] at h
      rw [ih all ch al hpw_rest h g]
      constructor
      · rintro ⟨hgr, fe, hfe, hne2⟩
        exact ⟨List.mem_cons_of_mem f hgr, fe, hfe, hne2⟩
      · rintro ⟨hgc, fe, hfe, hne2⟩
        rcases List.mem_cons.mp hgc with hgf | hgr
        · subst hgf
          rw [hfind] at hfe
          exact absurd hfe (by simp)
        · exact ⟨hgr, fe, hfe, hne2⟩
    | some fe =>
      cases hfe : fe.last_modified with
      | none =>
        rw [changed_loop_cons_bad f fe rest all hfind (Or.inl hfe)] at h
        exact absurd h (by simp)
      | some fm =>
        cases hf : f.last_modified with
        | none =>
          rw [changed_loop_cons_bad f fe rest all hfind (Or.inr hf)] at h
          exact absurd h (by simp)
        | some nm =>
          by_cases hne : fm = nm
          · subst hne
            rw [changed_loop_cons_eq f fe rest all fm hfind hfe hf] at h
            rw [ih all ch al hpw_rest h g]
            constructor
            · rintro ⟨hgr, fe2, hfe2, hne2⟩
              exact ⟨List.mem_cons_of_mem f hgr, fe2, hfe2, hne2⟩
            · rintro ⟨hgc, fe2, hfe2, hne2⟩
              rcases List.mem_cons.mp hgc with hgf | hgr
              · subst hgf
                rw [hfind] at hfe2
                have h2 : fe = fe2 := by injection hfe2
                subst h2
                rw [hfe, hf] at hne2
                exact absurd rfl hne2
              · exact ⟨hgr, fe2, hfe2, hne2⟩
          · rw [changed_loop_cons_ne f fe rest all fm nm hfind hfe hf hne] at h
            cases hrec : changed_loop rest (insertFile (removeName all f.name) f) with
            | none =>
              rw [hrec] at h
              exact absurd h (by simp)
            | some p =>
              obtain ⟨ch1, al1⟩ := p
              rw [hrec] at h
              simp only [Option.some.injEq, Prod.mk.injEq] at h
              obtain ⟨hch, hal⟩ := h
              subst hch
              have hih := ih _ ch1 al1 hpw_rest (by rw [hrec]) g
              constructor
              · intro hg
                rcases List.mem_cons.mp hg with hgf | hgc
                · subst hgf
                  refine ⟨List.mem_cons_self g rest, fe, hfind, ?_⟩
                  rw [hfe, hf]
                  simp [hne]
                · obtain ⟨hgr, fe2, hfe2, hne2⟩ := hih.mp hgc
                  have hgn : ¬(g.name = f.name) := fun hc => (hfns g hgr) hc.symm
                  rw [getByName_update all f g.name hgn] at hfe2
                  exact ⟨List.mem_cons_of_mem f hgr, fe2, hfe2, hne2⟩
              · rintro ⟨hgc, fe2, hfe2, hne2⟩
                rcases List.mem_cons.mp hgc with hgf | hgr
                · subst hgf
                  exact List.mem_cons_self g ch1
                · have hgn : ¬(g.name = f.name) := fun hc => (hfns g hgr) hc.symm
                  refine List.mem_cons_of_mem f (hih.mpr ⟨hgr, fe2, ?_, hne2⟩)
                  rw [getByName_update all f g.name hgn]
                  exact hfe2

/-- The pairs the rename correlation produces do not depend on the all_files
state it threads: each created file contributes the first deleted file (of
the full, never-shrinking deleted list) with an equal modified timestamp. -/
theorem rename_loop_fst (cs deleted : List File) :
    ∀ all, (rename_loop cs deleted all).1 = cs.filterMap
      (fun c => (deleted.find? (fun d => d.last_modified == c.last_modified)).map
        (fun d => RenamedFileEntry.mk c.name d.name)) := by
  induction cs with
  | nil => intro all; rfl
  | cons c cs ih =>
    intro all
    cases hfind : deleted.find? (fun d => d.last_modified == c.last_modified) with
    | none => simp [rename_loop, hfind, ih]
    | some d => simp [rename_loop, hfind, ih]

/-- Decomposition of one detection cycle into its pieces. -/
theorem diff_eq (all latest : List File) (r : DiffResult) (h : diff all latest = some r) :
    ∃ changed all1, changed_loop latest all = some (changed, all1) ∧
      r.changed = changed ∧
      r.renamed = (rename_loop (diffByName latest all) (diffByName all latest) all1).1 ∧
      r.created = (diffByName latest all).filter
        (fun f => !(r.renamed.any (fun v => v.name == f.name))) ∧
      r.deleted = (diffByName all latest).filter
        (fun f => !(r.renamed.any (fun v => v.old_name == f.name))) := by
  unfold diff at h
  cases hcl : changed_loop latest all with
  | none => rw [hcl] at h; exact absurd h (by simp)
  | some p =>
    obtain ⟨changed, all1⟩ := p
    rw [hcl] at h
    simp only [Option.some.injEq] at h
    refine ⟨changed, all1, rfl, ?_, ?_, ?_, ?_⟩ <;> rw [← h]

theorem parseTokens_all_valid (toks : List String) :
    toks.all validToken = true → ∃ exs fns, parseTokens toks = Except.ok (exs, fns) := by
  induction toks with
  | nil => intro _; exact ⟨[], [], rfl⟩
  | cons t rest ih =>
    intro h
    simp only [List.all_cons, Bool.and_eq_true] at h
    obtain ⟨exs, fns, hrec⟩ := ih h.2
    by_cases hs : startsWithStar t = true
    · exact ⟨extOf t :: exs, fns, by simp [parseTokens, h.1, hrec, hs]⟩
    · exact ⟨exs, t :: fns, by simp [parseTokens, h.1, hrec, hs]⟩

theorem parseTokens_invalid (toks : List String) :
    toks.all validToken = false → parseTokens toks = Except.error ConfigError.BadFilter := by
  induction toks with
  | nil => intro h; simp at h
  | cons t rest ih =>
    intro h
    simp only [List.all_cons, Bool.and_eq_false_iff] at h
    by_cases ht : validToken t = true
    · have hrest : rest.all validToken = false := by
        rcases h with h | h
        · rw [ht] at h; exact absurd h (by simp)
        · exact h
      have hrec : parseTokens rest = Except.error ConfigError.BadFilter := ih hrest
      simp [parseTokens, ht, hrec]
    · simp only [Bool.not_eq_true] at ht
      simp [parseTokens, ht]

/-- A snapshot built by get_files holds exactly the scanned files that pass
apply_notify_filters against the directory metadata. -/
theorem mem_get_files (files : List File) (meta : Metadata) (nf : NotifyFilters) :
    ∀ snap, get_files files meta nf = some snap →
      ∀ f, (f ∈ snap ↔ (f ∈ files ∧ apply_notify_filters f meta nf = some true)) := by
  induction files with
  | nil =>
    intro snap h f
    simp only [get_files, Option.some.injEq] at h
    rw [← h]
    simp
  | cons g rest ih =>
    intro snap h f
    cases hg : apply_notify_filters g meta nf with
    | none => simp [get_files, hg] at h
    | some b =>
      cases hrec : get_files rest meta nf with
      | none => simp [get_files, hg, hrec] at h
      | some r =>
        simp only [get_files, hg, hrec, Option.some.injEq] at h
        subst h
        cases b with
        | true =>
          constructor
          · intro hf
            rcases List.mem_cons.mp hf with hfg | hfr
            · subst hfg
              exact ⟨List.mem_cons_self f rest, hg⟩
            · obtain ⟨hm, hfil⟩ := (ih r hrec f).mp hfr
              exact ⟨List.mem_cons_of_mem g hm, hfil⟩
          · rintro ⟨hm, hfil⟩
            rcases List.mem_cons.mp hm with hfg | hfr
            · subst hfg
              simp
            · simp only [if_true]
              exact List.mem_cons_of_mem g ((ih r hrec f).mpr ⟨hfr, hfil⟩)
        | false =>
          constructor
          · intro hf
            simp only [if_neg (by simp : ¬(false = true))] at hf
            obtain ⟨hm, hfil⟩ := (ih r hrec f).mp hf
            exact ⟨List.mem_cons_of_mem g hm, hfil⟩
          · rintro ⟨hm, hfil⟩
            simp only [if_neg (by simp : ¬(false = true))]
            rcases List.mem_cons.mp hm with hfg | hfr
            · subst hfg
              rw [hg] at hfil
              exact absurd hfil (by simp)
            · exact (ih r hrec f).mpr ⟨hfr, hfil⟩

/-- Under the default LastWrite-only mask the filter in fact tests all three
timestamp clauses, because the bit pattern of LastWrite contains those of
LastAccess and CreationTime; the middle clause compares the directory's
accessed time with the file's modified time. -/
theorem apply_notify_filters_lastwrite (meta : Metadata) (f : File) (fm : Time)
    (h : f.last_modified = some fm) :
    apply_notify_filters f meta NotifyFilters.LastWrite =
      some ((!(meta.modified == fm)) ||
        ((!(meta.accessed == fm)) || (!(meta.created == f.created)))) := by
  have h5 : NotifyFilters.contains NotifyFilters.LastWrite NotifyFilters.LastWrite = true := by
    decide
  have h4 : NotifyFilters.contains NotifyFilters.LastWrite NotifyFilters.LastAccess = true := by
    decide
  have h1 : NotifyFilters.contains NotifyFilters.LastWrite NotifyFilters.CreationTime = true := by
    decide
  simp only [apply_notify_filters, h, h5, h4, h1, Bool.true_and]
  cases hw : (meta.modified == fm) <;> cases ha : (meta.accessed == fm) <;> simp

/-! Settling the specification claims. -/

/-- C1 (counterexample to the claim as stated): with the notify mask being
the LastAccess constant, the file x is present in both the baseline and the
latest snapshot, its accessed timestamp differs (10 against 20) while its
modified timestamp does not, yet the detection cycle reports no changed
file at all — the claimed iff characterisation of changed fails at this
input. -/
theorem c1_changed_mask_counterexample :
    NotifyFilters.contains NotifyFilters.LastAccess NotifyFilters.LastAccess = true ∧
    (⟨"x", some 100, some 10, 0⟩ : File).last_accessed ≠
      (⟨"x", some 100, some 20, 0⟩ : File).last_accessed ∧
    poll_cycle [⟨"x", some 100, some 10, 0⟩] [⟨"x", some 100, some 20, 0⟩]
      ⟨1, 0, 0⟩ NotifyFilters.LastAccess =
      some ⟨[], [], [], [], [⟨"x", some 100, some 10, 0⟩]⟩ := by
  decide

/-- C1 (amended): a file is reported as changed exactly when it occurs in
the latest snapshot and the baseline holds an entry of the same name with a
different modified timestamp; the notify-filter mask is not consulted by
the changed classification (it only gates snapshot membership), so in
particular a file whose modified timestamp is unchanged — e.g. under a
LastWrite-only mask with only the accessed time changed — is never
reported as changed. -/
theorem c1_changed_amended (all latest : List File) (r : DiffResult)
    (hnd : latest.Pairwise (fun a b => a.name ≠ b.name))
    (h : diff all latest = some r) :
    ∀ f, f ∈ r.changed ↔ (f ∈ latest ∧ ∃ fe, getByName all f.name = some fe ∧
      fe.last_modified ≠ f.last_modified) := by
  obtain ⟨changed, all1, hcl, hch, _, _, _⟩ := diff_eq all latest r h
  intro f
  rw [hch]
  exact changed_loop_iff latest all changed all1 hnd hcl f

/-- C1 witness: the amended characterisation applied at a concrete cycle. -/
theorem c1_changed_amended_witness :
    (⟨"x", some 2, some 0, 0⟩ : File) ∈
        (⟨[], [⟨"x", some 2, some 0, 0⟩], [], [], [⟨"x", some 2, some 0, 0⟩]⟩ :
          DiffResult).changed ↔
      ((⟨"x", some 2, some 0, 0⟩ : File) ∈ [(⟨"x", some 2, some 0, 0⟩ : File)] ∧
        ∃ fe, getByName [⟨"x", some 1, some 0, 0⟩] (⟨"x", some 2, some 0, 0⟩ : File).name
            = some fe ∧
          fe.last_modified ≠ (⟨"x", some 2, some 0, 0⟩ : File).last_modified) :=
  c1_changed_amended [⟨"x", some 1, some 0, 0⟩] [⟨"x", some 2, some 0, 0⟩]
    ⟨[], [⟨"x", some 2, some 0, 0⟩], [], [], [⟨"x", some 2, some 0, 0⟩]⟩
    (by simp) (by decide) ⟨"x", some 2, some 0, 0⟩

/-- C2 (counterexample): with the parsed filter of the txt and pdf star
tokens, includeAll is false, the file-name set is empty, and the extension
tx of the file a.tx is not a member of the extension set, yet the path
filter accepts a.tx: extension matching is substring containment, not set
membership. -/
theorem c2_path_filter_counterexample :
    parseFilter (some "*.txt;*.pdf") =
      Except.ok ⟨false, some ["txt", "pdf"], some []⟩ ∧
    pathExtension "a.tx" = some "tx" ∧
    (["txt", "pdf"].contains "tx") = false ∧
    entry_filter true "a.tx" (some ["txt", "pdf"]) (some []) = true :=
  ⟨rfl, by decide, by decide, by decide⟩

/-- C2 (amended): directories always pass; a file passes outright when both
parsed sets are absent (the includeAll and no-filter states); when the
extension set is present and the file has an extension the verdict is
whether some parsed extension contains the file's extension as a substring
(the file-name set is not consulted in that case); otherwise the verdict is
exact membership of the file's name in the file-name set.  In particular,
under the txt and pdf filter, a.png is rejected and a.txt is accepted. -/
theorem c2_path_filter_amended (name : String) (exts fns : List String) :
    entry_filter false name (some exts) (some fns) = true ∧
    entry_filter true name none none = true ∧
    (entry_filter true name (some exts) (some fns) =
      match pathExtension name with
      | some extension => exts.any (fun e => strContains e extension)
      | none => fns.contains name) ∧
    entry_filter true "a.png" (some ["txt", "pdf"]) (some []) = false ∧
    entry_filter true "a.txt" (some ["txt", "pdf"]) (some []) = true := by
  refine ⟨rfl, ?_, ?_, by decide, by decide⟩
  · cases hp : pathExtension name <;> simp [entry_filter, hp]
  · cases hp : pathExtension name <;> simp [entry_filter, hp]

/-- C3 (counterexample): baseline A, latest B and C, all three sharing the
modified timestamp 100.  The deleted candidate A is paired with B and then
again with C: a consumed deleted candidate remains available to later
created files, against the claim. -/
theorem c3_rename_counterexample :
    diff [⟨"A", some 100, some 0, 0⟩]
        [⟨"B", some 100, some 0, 0⟩, ⟨"C", some 100, some 0, 0⟩] =
      some ⟨[], [], [], [⟨"B", "A"⟩, ⟨"C", "A"⟩],
        [⟨"B", some 100, some 0, 0⟩, ⟨"C", some 100, some 0, 0⟩]⟩ ∧
    ([⟨"B", "A"⟩, ⟨"C", "A"⟩] : List RenamedFileEntry).countP
        (fun p => p.old_name == "A") = 2 := by
  decide

/-- C3 (amended): in each cycle every created file is paired with the first
deleted file — searching the full deleted list, candidates are never
consumed — whose modified timestamp equals its own, recording the pair as
(created name, deleted name); both members of every recorded pair are
removed from the published created and deleted sets; because the deleted
list never shrinks during pairing, one deleted candidate can be recorded
against several created files. -/
theorem c3_rename_amended (all latest : List File) (r : DiffResult)
    (h : diff all latest = some r) :
    r.renamed = (diffByName latest all).filterMap
      (fun c => ((diffByName all latest).find?
          (fun d => d.last_modified == c.last_modified)).map
        (fun d => RenamedFileEntry.mk c.name d.name)) ∧
    (∀ p ∈ r.renamed, (∀ f ∈ r.created, ¬(f.name = p.name)) ∧
      (∀ f ∈ r.deleted, ¬(f.name = p.old_name))) := by
  obtain ⟨changed, all1, hcl, hch, hrn, hcr, hdl⟩ := diff_eq all latest r h
  constructor
  · rw [hrn, rename_loop_fst]
  · intro p hp
    constructor
    · intro f hf hc
      rw [hcr] at hf
      have hfl := (List.mem_filter.mp hf).2
      rw [Bool.not_eq_true'] at hfl
      have := List.any_eq_false.mp hfl p hp
      exact this (by simp [hc])
    · intro f hf hc
      rw [hdl] at hf
      have hfl := (List.mem_filter.mp hf).2
      rw [Bool.not_eq_true'] at hfl
      have := List.any_eq_false.mp hfl p hp
      exact this (by simp [hc])

/-- C3 witness: the amended statement at the spec's rename example, baseline
A and latest B sharing modified timestamp 100. -/
theorem c3_rename_amended_witness :
    ([⟨"B", "A"⟩] : List RenamedFileEntry) =
      (diffByName [⟨"B", some 100, some 0, 0⟩] [⟨"A", some 100, some 0, 0⟩]).filterMap
        (fun c => ((diffByName [⟨"A", some 100, some 0, 0⟩]
              [⟨"B", some 100, some 0, 0⟩]).find?
            (fun d => d.last_modified == c.last_modified)).map
          (fun d => RenamedFileEntry.mk c.name d.name)) ∧
    (∀ p ∈ ([⟨"B", "A"⟩] : List RenamedFileEntry),
      (∀ f ∈ ([] : List File), ¬(f.name = p.name)) ∧
      (∀ f ∈ ([] : List File), ¬(f.name = p.old_name))) :=
  c3_rename_amended [⟨"A", some 100, some 0, 0⟩] [⟨"B", some 100, some 0, 0⟩]
    ⟨[], [], [], [⟨"B", "A"⟩], [⟨"B", some 100, some 0, 0⟩]⟩ (by decide)

/-- C4: when fs::metadata on the root fails at the poll pre-check, the
poller's unwrap panics the thread; a cycle's emitted messages never include
the ERROR operation, and the notifier's handler for the ERROR operation is
unimplemented (todo!), so no terminal Error event is ever emitted or
delivered — the poller dies by panic instead. -/
theorem c4_root_unreadable_panics :
    (∀ meta : Metadata, poll_precheck meta none = PollStep.panicked) ∧
    notifier_handle OPERATION.ERROR = none ∧
    (∀ r : DiffResult, OPERATION.ERROR ∉ cycle_messages r) := by
  refine ⟨fun meta => rfl, rfl, ?_⟩
  intro r hc
  simp only [cycle_messages, List.mem_append] at hc
  rcases hc with ((hc | hc) | hc) | hc <;> split at hc <;> simp at hc

/-- C5: in any detection cycle the published created, changed and deleted
sets are pairwise disjoint on names (File equality in the source is name
equality). -/
theorem c5_sets_pairwise_disjoint (all latest : List File) (r : DiffResult)
    (h : diff all latest = some r) :
    ∀ n : String,
      ¬(memName r.created n = true ∧ memName r.changed n = true) ∧
      ¬(memName r.created n = true ∧ memName r.deleted n = true) ∧
      ¬(memName r.changed n = true ∧ memName r.deleted n = true) := by
  obtain ⟨changed, all1, hcl, hch, hrn, hcr, hdl⟩ := diff_eq all latest r h
  intro n
  have hcreated : memName r.created n = true →
      memName all n = false ∧ memName latest n = true := by
    intro hm
    rw [memName_iff] at hm
    obtain ⟨g, hg, hgn⟩ := hm
    rw [hcr] at hg
    have hg0 := (List.mem_filter.mp hg).1
    have hg1 := (List.mem_filter.mp hg0).1
    have hg2 := (List.mem_filter.mp hg0).2
    rw [Bool.not_eq_true'] at hg2
    exact ⟨by rw [← hgn]; exact hg2, (memName_iff latest n).mpr ⟨g, hg1, hgn⟩⟩
  have hchanged : memName r.changed n = true →
      memName all n = true ∧ memName latest n = true := by
    intro hm
    rw [memName_iff] at hm
    obtain ⟨g, hg, hgn⟩ := hm
    rw [hch] at hg
    have := changed_loop_mem latest all changed all1 hcl g hg
    exact ⟨by rw [← hgn]; exact this.2, (memName_iff latest n).mpr ⟨g, this.1, hgn⟩⟩
  have hdeleted : memName r.deleted n = true → memName latest n = false := by
    intro hm
    rw [memName_iff] at hm
    obtain ⟨g, hg, hgn⟩ := hm
    rw [hdl] at hg
    have hg0 := (List.mem_filter.mp hg).1
    have hg2 := (List.mem_filter.mp hg0).2
    rw [Bool.not_eq_true'] at hg2
    rw [← hgn]
    exact hg2
  refine ⟨?_, ?_, ?_⟩
  · rintro ⟨h1, h2⟩
    have ha := (hcreated h1).1
    have hb := (hchanged h2).1
    rw [ha] at hb
    exact Bool.false_ne_true hb
  · rintro ⟨h1, h2⟩
    have ha := (hcreated h1).2
    have hb := hdeleted h2
    rw [hb] at ha
    exact Bool.false_ne_true ha
  · rintro ⟨h1, h2⟩
    have ha := (hchanged h1).2
    have hb := hdeleted h2
    rw [hb] at ha
    exact Bool.false_ne_true ha

/-- C5 witness: the disjointness instantiated at a concrete cycle with one
created and one deleted file. -/
theorem c5_sets_pairwise_disjoint_witness :
    ¬(memName [⟨"b", some 2, some 0, 0⟩] "b" = true ∧ memName [] "b" = true) ∧
    ¬(memName [⟨"b", some 2, some 0, 0⟩] "b" = true ∧
        memName [⟨"a", some 1, some 0, 0⟩] "b" = true) ∧
    ¬(memName [] "b" = true ∧ memName [⟨"a", some 1, some 0, 0⟩] "b" = true) :=
  c5_sets_pairwise_disjoint [⟨"a", some 1, some 0, 0⟩] [⟨"b", some 2, some 0, 0⟩]
    ⟨[⟨"b", some 2, some 0, 0⟩], [], [⟨"a", some 1, some 0, 0⟩], [],
      [⟨"b", some 2, some 0, 0⟩]⟩ (by decide) "b"

/-- C6 (counterexample): the expression of the all-files token followed by
a bang splits into one token matching the grammar and one that does not,
yet parsing succeeds with includeAll: the all-files token short-circuits
validation of every other token. -/
theorem c6_parse_counterexample :
    splitFilters "*.*;!" = ["*.*", "!"] ∧
    validToken "!" = false ∧
    parseFilter (some "*.*;!") = Except.ok ⟨true, none, none⟩ :=
  ⟨by decide, by decide, rfl⟩

/-- C6 (amended): for a nonempty expression, when some token equals the
all-files token parsing succeeds with includeAll set and without validating
the other tokens; otherwise parsing succeeds exactly when every token
matches the grammar, and fails with BadFilter (the construction panic in
the source) producing no partial object otherwise. -/
theorem c6_parse_amended (expr : String) (hne : expr.toList.isEmpty = false) :
    ((splitFilters expr).any (fun e => e == ALL_FILES_FILTER) = true →
      parseFilter (some expr) = Except.ok ⟨true, none, none⟩) ∧
    ((splitFilters expr).any (fun e => e == ALL_FILES_FILTER) = false →
      (((splitFilters expr).all validToken = true →
        ∃ exs fns, parseFilter (some expr) = Except.ok ⟨false, some exs, some fns⟩) ∧
      ((splitFilters expr).all validToken = false →
        parseFilter (some expr) = Except.error ConfigError.BadFilter))) := by
  have hne2 : ¬ expr.data = [] := by
    intro hd
    rw [show expr.toList = expr.data from rfl, hd] at hne
    simp at hne
  constructor
  · intro hall
    simp [parseFilter, hne, hall, hne2]
  · intro hnall
    constructor
    · intro hv
      obtain ⟨exs, fns, hp⟩ := parseTokens_all_valid (splitFilters expr) hv
      exact ⟨exs, fns, by simp [parseFilter, hne, hnall, hp, hne2]⟩
    · intro hv
      simp [parseFilter, hne, hnall, parseTokens_invalid (splitFilters expr) hv, hne2]

/-- C6 witness: the amended statement applied to two concrete expressions,
one all-files and one with a single valid extension token. -/
theorem c6_parse_amended_witness :
    parseFilter (some "*.*") = Except.ok ⟨true, none, none⟩ ∧
    (∃ exs fns, parseFilter (some "*.txt") = Except.ok ⟨false, some exs, some fns⟩) :=
  ⟨(c6_parse_amended "*.*" (by decide)).1 (by decide),
    ((c6_parse_amended "*.txt" (by decide)).2 (by decide)).1 (by decide)⟩

/-- C7: from the freshly constructed (stopped) state, start returns true
then false, then stop returns true then false; moreover in any state the
second of two consecutive starts and the second of two consecutive stops
return false — a no-op, not an error. -/
theorem c7_start_stop_twice :
    (FileWatcher.start false).1 = true ∧
    (FileWatcher.start (FileWatcher.start false).2).1 = false ∧
    (FileWatcher.stop (FileWatcher.start false).2).1 = true ∧
    (FileWatcher.stop (FileWatcher.stop (FileWatcher.start false).2).2).1 = false ∧
    (∀ s : Bool, (FileWatcher.start (FileWatcher.start s).2).1 = false) ∧
    (∀ s : Bool, (FileWatcher.stop (FileWatcher.stop s).2).1 = false) := by
  decide

/-- C8 (counterexample): an entry whose created timestamp accessor fails
(platform does not support it) makes the scanner's File construction fail
with that error — the unwrap panics the scan — instead of recording an
absent attribute. -/
theorem c8_scan_timestamp_counterexample :
    scan_entry_file "a" ⟨Except.error "unsupported platform", Except.ok 1, Except.ok 2⟩ =
      Except.error "unsupported platform" :=
  rfl

/-- C8 (amended): the scanner's File construction succeeds exactly when all
three timestamp accessors succeed — an unsupported timestamp is a scan
panic, never an absent attribute — and every File it does record carries
present (some) modified and accessed timestamps and a non-optional created
timestamp. -/
theorem c8_scan_timestamps_amended (path : String) (meta : MetaTimes) :
    ((scan_entry_file path meta).isOk =
      (meta.created.isOk && (meta.modified.isOk && meta.accessed.isOk))) ∧
    (∀ f, scan_entry_file path meta = Except.ok f →
      f.last_modified.isSome = true ∧ f.last_accessed.isSome = true ∧ f.name = path) := by
  obtain ⟨c, m, a⟩ := meta
  cases c with
  | error e => exact ⟨rfl, fun f hf => Except.noConfusion hf⟩
  | ok cv =>
    cases m with
    | error e => exact ⟨rfl, fun f hf => Except.noConfusion hf⟩
    | ok mv =>
      cases a with
      | error e => exact ⟨rfl, fun f hf => Except.noConfusion hf⟩
      | ok av =>
        refine ⟨rfl, fun f hf => ?_⟩
        have h2 : (⟨path, some mv, some av, cv⟩ : File) = f := by
          injection hf
        rw [← h2]
        exact ⟨rfl, rfl, rfl⟩

/-- C8 witness: the amended statement at a concrete, fully supported
entry. -/
theorem c8_scan_timestamps_amended_witness :
    (some 1 : Option Time).isSome = true ∧ (some 2 : Option Time).isSome = true ∧
      "a" = "a" :=
  (c8_scan_timestamps_amended "a" ⟨Except.ok 0, Except.ok 1, Except.ok 2⟩).2
    ⟨"a", some 1, some 2, 0⟩ rfl

/-- C9: the NotifyFilters constants carry the ordinal values zero through
seven rather than distinct single bits, so bitflags containment over the
eight dimensions is not independent: Attributes (value zero) is contained
in every mask, and the LastWrite-only mask (value five) also contains
LastAccess (four) and CreationTime (one). -/
theorem c9_notify_filters_ordinals :
    (NotifyFilters.Attributes = 0 ∧ NotifyFilters.CreationTime = 1 ∧
      NotifyFilters.DirectoryName = 2 ∧ NotifyFilters.FileName = 3 ∧
      NotifyFilters.LastAccess = 4 ∧ NotifyFilters.LastWrite = 5 ∧
      NotifyFilters.Security = 6 ∧ NotifyFilters.Size = 7) ∧
    (∀ m : NotifyFilters, NotifyFilters.contains m NotifyFilters.Attributes = true) ∧
    NotifyFilters.contains NotifyFilters.LastWrite NotifyFilters.LastAccess = true ∧
    NotifyFilters.contains NotifyFilters.LastWrite NotifyFilters.CreationTime = true := by
  refine ⟨⟨rfl, rfl, rfl, rfl, rfl, rfl, rfl, rfl⟩, ?_, by decide, by decide⟩
  intro m
  simp [NotifyFilters.contains, NotifyFilters.Attributes, Nat.land]

/-- C10 (counterexample): under the default LastWrite-only mask, a file
whose modified timestamp equals the directory's modified timestamp is
nevertheless included in the snapshot, because the mask's bit pattern also
contains LastAccess and that clause compares the directory's accessed time
with the file's modified time (here 50 against 100). -/
theorem c10_snapshot_counterexample :
    (⟨"a", some 100, some 7, 0⟩ : File).last_modified =
      some (⟨100, 50, 0⟩ : Metadata).modified ∧
    get_files [⟨"a", some 100, some 7, 0⟩] ⟨100, 50, 0⟩ NotifyFilters.LastWrite =
      some [⟨"a", some 100, some 7, 0⟩] := by
  decide

/-- C10 (amended): every snapshot holds exactly the scanned files that pass
apply_notify_filters against the directory's own metadata; under the
LastWrite-only mask the filter's verdict is: the file's modified differs
from the directory's modified, or the file's modified differs from the
directory's accessed, or the file's created differs from the directory's
created — so a file with modified equal to the directory's modified is
excluded only when the other two clauses also fail. -/
theorem c10_snapshot_amended (files : List File) (meta : Metadata) (nf : NotifyFilters)
    (snap : List File) (h : get_files files meta nf = some snap) :
    (∀ f, f ∈ snap ↔ (f ∈ files ∧ apply_notify_filters f meta nf = some true)) ∧
    (∀ f fm, f.last_modified = some fm →
      apply_notify_filters f meta NotifyFilters.LastWrite =
        some ((!(meta.modified == fm)) ||
          ((!(meta.accessed == fm)) || (!(meta.created == f.created))))) :=
  ⟨mem_get_files files meta nf snap h,
    fun f fm hf => apply_notify_filters_lastwrite meta f fm hf⟩

/-- C10 witness: the amended statement at a concrete snapshot in which the
file is filtered out because all three clauses fail. -/
theorem c10_snapshot_amended_witness :
    ((⟨"a", some 1, some 2, 3⟩ : File) ∈ ([] : List File) ↔
      ((⟨"a", some 1, some 2, 3⟩ : File) ∈ [(⟨"a", some 1, some 2, 3⟩ : File)] ∧
        apply_notify_filters ⟨"a", some 1, some 2, 3⟩ ⟨1, 1, 3⟩ NotifyFilters.LastWrite =
          some true)) ∧
    apply_notify_filters ⟨"a", some 1, some 2, 3⟩ ⟨1, 1, 3⟩ NotifyFilters.LastWrite =
      some ((!((1 : Time) == 1)) || ((!((1 : Time) == 1)) || (!((3 : Time) == 3)))) :=
  ⟨(c10_snapshot_amended [⟨"a", some 1, some 2, 3⟩] ⟨1, 1, 3⟩ NotifyFilters.LastWrite []
      (by decide)).1 ⟨"a", some 1, some 2, 3⟩,
    (c10_snapshot_amended [⟨"a", some 1, some 2, 3⟩] ⟨1, 1, 3⟩ NotifyFilters.LastWrite []
      (by decide)).2 ⟨"a", some 1, some 2, 3⟩ 1 rfl⟩

end RWatcher
